import Mathlib

/-!
Verification of the country-economics data-cleaning pipeline.

Shallow embedding of the cleaning script (column-name normalisation,
numeric coercion, grouping-key fill, region-median imputation with a
global-median fallback, and the derived gdp-per-capita field), together
with proofs of the specified properties.

Modelling conventions:
* a table cell of a numeric indicator column is a `RawCell`: missing
  (`na`, the embedding of NaN), a numeric value (`num q`, exact rational
  in place of float64), or non-numeric text (`text s`);
* the non-finite result of dividing by a zero population is embedded as
  the undefined marker `na`;
* medians are computed over exact rationals, with the even-count median
  being the mean of the two middle elements of the sorted list, exactly
  as the numeric library underlying the script computes it.
-/

/-- A cell of a numeric indicator column: missing (NaN), a numeric value,
or non-numeric text that the coercion stage will turn into missing. -/
inductive RawCell where
  | na : RawCell
  | num (q : ℚ) : RawCell
  | text (s : String) : RawCell
deriving DecidableEq

/-- The numeric value carried by a cell, if any. -/
def cellVal : RawCell → Option ℚ
  | RawCell.num q => some q
  | _ => none

/-- `fillna` at the level of one cell: a missing cell is replaced by the
given value when that value exists; every other cell is kept. -/
def fillCell (m : Option ℚ) : RawCell → RawCell
  | RawCell.na =>
      match m with
      | some q => RawCell.num q
      | none => RawCell.na
  | c => c

/-- The per-column missing-value count, as reported by the post-run
diagnostic `df.isna().sum()`. -/
def missingCount (col : List RawCell) : Nat :=
  (col.filter (fun c => c == RawCell.na)).length

/-- The median of a list of rationals as the script's numeric library
computes it: sort, take the middle element when the count is odd, the
arithmetic mean of the two middle elements when the count is even, and
no result (NaN) for an empty list. -/
def median (l : List ℚ) : Option ℚ :=
  let s := List.insertionSort (fun a b => a ≤ b) l
  if s.length = 0 then none
  else if s.length % 2 = 1 then some (s.getD (s.length / 2) 0)
  else some ((s.getD (s.length / 2 - 1) 0 + s.getD (s.length / 2) 0) / 2)

/-- The numeric values present in the rows of one group, where a row is a
(grouping-key, cell) pair: the restriction of the column to the group
`g`, with missing and textual cells dropped. -/
def groupVals (rows : List (String × RawCell)) (g : String) : List ℚ :=
  (rows.filter (fun r => r.1 == g)).filterMap (fun r => cellVal r.2)

/-- The median of a group's present values (`s.median()` inside the
`groupby("region")` transform). -/
def groupMedian (rows : List (String × RawCell)) (g : String) : Option ℚ :=
  median (groupVals rows g)

/-- One row's cell after the group-median pass
(`s.fillna(s.median())` applied within the row's group). -/
def groupPassCell (rows : List (String × RawCell)) (r : String × RawCell) : RawCell :=
  fillCell (groupMedian rows r.1) r.2

/-- The whole column after the group-median pass
(`df.groupby("region")[c].transform(lambda s: s.fillna(s.median()))`). -/
def groupPass (rows : List (String × RawCell)) : List RawCell :=
  rows.map (groupPassCell rows)

/-- The numeric values present in a column. -/
def colVals (col : List RawCell) : List ℚ :=
  col.filterMap cellVal

/-- The global median used by the fallback pass: the median of the whole
column after the group pass (`df[c].median()` on line 75, evaluated after
line 71 reassigned `df[c]`). -/
def globalMedianPost (rows : List (String × RawCell)) : Option ℚ :=
  median (colVals (groupPass rows))

/-- One row's final cell: the group-pass result, with any still-missing
value replaced by the global median (`df[c].fillna(df[c].median())`). -/
def imputeCell (rows : List (String × RawCell)) (r : String × RawCell) : RawCell :=
  fillCell (globalMedianPost rows) (groupPassCell rows r)

/-- The imputation of one numeric column given the grouping-key column:
group-median pass followed by the global-median fallback pass. -/
def imputeColumn (keys : List String) (vals : List RawCell) : List RawCell :=
  (keys.zip vals).map (imputeCell (keys.zip vals))

-- Basic facts about `fillCell` and `median`.

theorem fillCell_num (m : Option ℚ) (q : ℚ) :
    fillCell m (RawCell.num q) = RawCell.num q := rfl

theorem fillCell_text (m : Option ℚ) (s : String) :
    fillCell m (RawCell.text s) = RawCell.text s := rfl

theorem fillCell_na_some (q : ℚ) : fillCell (some q) RawCell.na = RawCell.num q := rfl

theorem fillCell_na_none : fillCell none RawCell.na = RawCell.na := rfl

theorem median_isSome_of_ne_nil {l : List ℚ} (h : l ≠ []) : (median l).isSome = true := by
  unfold median
  have hlen : (List.insertionSort (fun a b => a ≤ b) l).length = l.length :=
    List.length_insertionSort _ l
  have hne : (List.insertionSort (fun a b => a ≤ b) l).length ≠ 0 := by
    rw [hlen]
    simpa using h
  simp only [hne, if_false]
  split <;> simp

theorem median_eq_some_of_ne_nil {l : List ℚ} (h : l ≠ []) : ∃ m, median l = some m := by
  have := median_isSome_of_ne_nil h
  exact Option.isSome_iff_exists.mp this

theorem median_nil : median [] = none := rfl

/-- Sorting is invariant under permutation of the input. -/
theorem insertionSort_eq_of_perm {l₁ l₂ : List ℚ} (h : List.Perm l₁ l₂) :
    List.insertionSort (fun a b => a ≤ b) l₁ = List.insertionSort (fun a b => a ≤ b) l₂ := by
  apply List.eq_of_perm_of_sorted (r := fun a b => a ≤ b)
  · exact ((List.perm_insertionSort _ l₁).trans h).trans (List.perm_insertionSort _ l₂).symm
  · exact List.sorted_insertionSort _ l₁
  · exact List.sorted_insertionSort _ l₂

/-- The median depends only on the multiset of values. -/
theorem median_congr_perm {l₁ l₂ : List ℚ} (h : List.Perm l₁ l₂) :
    median l₁ = median l₂ := by
  unfold median
  rw [insertionSort_eq_of_perm h]

-- The table model and the cleaning stages.

/-- The list of numeric indicator columns targeted by coercion and
imputation (`num_cols` in the script). -/
def num_cols : List String :=
  ["gdp", "gdp_growth", "interest_rate", "inflation_rate", "jobless_rate",
   "gov_budget", "debt_gdp", "current_account", "population", "area"]

/-- The in-memory table. Identifier columns (country name, geographic id)
are carried structurally; `region` is `none` when the raw file has no
region column; `numCols` are the named numeric-indicator columns, whose
cells are already classified as missing, numeric, or non-numeric text
(the CSV reader's cell parsing is abstracted into that classification);
`gdpPerCapita` is `none` until the derivation stage creates it. -/
structure Table where
  country : List String
  geoId : List (Option String)
  region : Option (List (Option String))
  numCols : List (String × List RawCell)
  gdpPerCapita : Option (List RawCell)
deriving DecidableEq

/-- Characters kept verbatim by header normalisation: the class
`[a-z0-9]` of the script's replacement regex. -/
def isAllowed (c : Char) : Bool :=
  (97 ≤ c.toNat && c.toNat ≤ 122) || (48 ≤ c.toNat && c.toNat ≤ 57)

/-- `str.strip()` on a header: drop leading and trailing whitespace. -/
def stripChars (l : List Char) : List Char :=
  ((l.dropWhile Char.isWhitespace).reverse.dropWhile Char.isWhitespace).reverse

/-- The regex replacement `[^a-z0-9]+ -> _`: every maximal run of
characters outside `[a-z0-9]` collapses to a single underscore. -/
def collapse : List Char → List Char
  | [] => []
  | c :: rest =>
    if isAllowed c then c :: collapse rest
    else '_' :: collapse (rest.dropWhile (fun d => !isAllowed d))
termination_by l => l.length
decreasing_by
  · simp only [List.length_cons]
    omega
  · have hle := (List.dropWhile_sublist (l := rest) (fun d => !isAllowed d)).length_le
    simp only [List.length_cons]
    omega

/-- The per-header transform of the column-name cleaning step:
strip, lowercase, then collapse disallowed runs to underscores. -/
def normalize_header (s : String) : String :=
  String.mk (collapse ((stripChars s.data).map Char.toLower))

/-- The column-name cleaning step applied to the header list
(`df.columns.str.strip().str.lower().str.replace(...)`). -/
def normalize_columns (hs : List String) : List String :=
  hs.map normalize_header

/-- `pd.to_numeric(..., errors="coerce")` at cell level: numeric cells
survive, text and missing cells become missing. -/
def toNumericCell : RawCell → RawCell
  | RawCell.num q => RawCell.num q
  | _ => RawCell.na

/-- The type-coercion stage: each column named in `num_cols` that is
present in the table has its cells coerced; other columns are skipped. -/
def coerce_numeric (t : Table) : Table :=
  { t with numCols := t.numCols.map (fun c => if c.1 ∈ num_cols then (c.1, c.2.map toNumericCell) else c) }

/-- The grouping-key fill: if the region column exists, its missing
values are replaced by `"Unknown"`; otherwise the column is created with
every row set to `"Unknown"` (`n` is the table's row count). -/
def fill_grouping_key (col : Option (List (Option String))) (n : Nat) :
    List (Option String) :=
  match col with
  | some vs => vs.map (fun v =>
      match v with
      | none => some "Unknown"
      | some s => some s)
  | none => List.replicate n (some "Unknown")

/-- The grouping-key stage on the table. -/
def fillKeyStage (t : Table) : Table :=
  { t with region := some (fill_grouping_key t.region t.country.length) }

/-- The grouping-key column as plain strings, read from the (filled)
region column; the imputation stage always runs after the fill stage, so
every entry is present and the default is never consulted. -/
def tableKeys (t : Table) : List String :=
  (match t.region with
   | some vs => vs
   | none => []).map (fun (v : Option String) => v.getD "Unknown")

/-- The imputation stage: every `num_cols` column present in the table is
imputed against the region keys; all other columns are untouched. -/
def impute_numeric_fields (t : Table) : Table :=
  { t with numCols := t.numCols.map (fun c => if c.1 ∈ num_cols then (c.1, imputeColumn (tableKeys t) c.2) else c) }

/-- Column lookup by name. -/
def getCol (t : Table) (n : String) : List RawCell :=
  ((t.numCols.find? (fun c => c.1 == n)).map (fun c => c.2)).getD []

/-- One row of the derived field: `gdp * 1e9 / population`, embedding the
non-finite float results (missing operand, zero population) as the
undefined marker `na`. -/
def deriveCell (g p : RawCell) : RawCell :=
  match cellVal g, cellVal p with
  | some gv, some pv =>
      if pv = 0 then RawCell.na else RawCell.num (gv * 1000000000 / pv)
  | _, _ => RawCell.na

/-- The derived column, computed row by row. -/
def deriveCol (gs ps : List RawCell) : List RawCell :=
  List.zipWith deriveCell gs ps

/-- The derivation stage: creates the `gdp_per_capita` column from the
`gdp` and `population` columns. -/
def derive_gdp_per_capita (t : Table) : Table :=
  { t with gdpPerCapita := some (deriveCol (getCol t "gdp") (getCol t "population")) }

/-- The observable dataset-transforming steps of the script, in source
order: reading the CSV and the five cleaning stages. -/
inductive Step where
  | readCsv : Step
  | normalizeCols : Step
  | coerce : Step
  | fillKey : Step
  | impute : Step
  | derive : Step
deriving DecidableEq

/-- The stage function denoted by each non-read step. -/
def applyStage : Step → Table → Table
  | Step.readCsv, t => t
  | Step.normalizeCols, t =>
      { t with numCols := t.numCols.map (fun c => (normalize_header c.1, c.2)) }
  | Step.coerce, t => coerce_numeric t
  | Step.fillKey, t => fillKeyStage t
  | Step.impute, t => impute_numeric_fields t
  | Step.derive, t => derive_gdp_per_capita t

/-- The step sequence of the script as written: it reads the CSV, starts
normalising, then reads the CSV a second time (lines 4 and 33) and runs
the whole pipeline on that second read; the final table is what gets
written to the output file. -/
def script : List Step :=
  [Step.readCsv, Step.normalizeCols, Step.readCsv, Step.normalizeCols,
   Step.coerce, Step.fillKey, Step.impute, Step.derive]

/-- The single-read pipeline the specification describes. -/
def singleReadScript : List Step :=
  [Step.readCsv, Step.normalizeCols,
   Step.coerce, Step.fillKey, Step.impute, Step.derive]

/-- Interpreter for a step sequence over a fixed external source `src`:
a read step replaces the in-memory table with the source, discarding
whatever was there; every other step applies its stage function. -/
def interp (src : Table) : List Step → Option Table → Option Table
  | [], df => df
  | Step.readCsv :: rest, _ => interp src rest (some src)
  | s :: rest, df => interp src rest (df.map (applyStage s))

/-- How many times a step sequence reads the external source. -/
def readCount (p : List Step) : Nat :=
  (p.filter (fun s => s == Step.readCsv)).length

-- Facts about header normalisation.

theorem collapse_nil : collapse [] = [] := by
  rw [collapse.eq_def]

theorem collapse_cons_pos {c : Char} {rest : List Char} (h : isAllowed c = true) :
    collapse (c :: rest) = c :: collapse rest := by
  rw [collapse.eq_def]
  simp [h]

theorem collapse_cons_neg {c : Char} {rest : List Char} (h : isAllowed c = false) :
    collapse (c :: rest) = '_' :: collapse (rest.dropWhile (fun d => !isAllowed d)) := by
  rw [collapse.eq_def]
  simp [h]

/-- Every character of a collapsed header is in `[a-z0-9]` or an underscore. -/
theorem mem_collapse {l : List Char} {x : Char} (h : x ∈ collapse l) :
    isAllowed x = true ∨ x = '_' := by
  induction l using collapse.induct with
  | case1 => rw [collapse_nil] at h; cases h
  | case2 c rest hc ih =>
      rw [collapse_cons_pos hc] at h
      rcases List.mem_cons.mp h with h1 | h2
      · exact Or.inl (h1 ▸ hc)
      · exact ih h2
  | case3 c rest hc ih =>
      rw [collapse_cons_neg (by simpa using hc)] at h
      rcases List.mem_cons.mp h with h1 | h2
      · exact Or.inr h1
      · exact ih h2

theorem dropWhile_eq_self_of_all {α : Type} {p : α → Bool} {l : List α}
    (h : ∀ c ∈ l, p c = false) : l.dropWhile p = l := by
  cases l with
  | nil => rfl
  | cons c t =>
      rw [List.dropWhile_cons_of_neg]
      simp [h c (by simp)]

/-- Dropping disallowed characters from a collapsed dropWhile-result is a
no-op: such a list is empty or starts with an allowed character. -/
theorem dropWhile_collapse_dropWhile (l : List Char) :
    (collapse (l.dropWhile (fun d => !isAllowed d))).dropWhile (fun d => !isAllowed d) =
      collapse (l.dropWhile (fun d => !isAllowed d)) := by
  have hh := List.head?_dropWhile_not (fun d => !isAllowed d) l
  rcases hr : l.dropWhile (fun d => !isAllowed d) with _ | ⟨e, t⟩
  · rw [collapse_nil]
    rfl
  · rw [hr] at hh
    simp only [List.head?_cons, Bool.not_eq_false'] at hh
    rw [collapse_cons_pos hh]
    rw [List.dropWhile_cons_of_neg]
    simp [hh]

/-- Collapsing disallowed runs is idempotent. -/
theorem collapse_idem (l : List Char) : collapse (collapse l) = collapse l := by
  induction l using collapse.induct with
  | case1 => rw [collapse_nil, collapse_nil]
  | case2 c rest hc ih =>
      rw [collapse_cons_pos hc, collapse_cons_pos hc, ih]
  | case3 c rest hc ih =>
      have hc' : isAllowed c = false := by simpa using hc
      rw [collapse_cons_neg hc']
      rw [collapse_cons_neg (show isAllowed '_' = false by decide)]
      rw [dropWhile_collapse_dropWhile, ih]

/-- Lowercasing fixes the characters a collapsed header can contain. -/
theorem toLower_fixed {c : Char} (h : isAllowed c = true ∨ c = '_') :
    c.toLower = c := by
  rcases h with h | h
  · have hn : (97 ≤ c.toNat ∧ c.toNat ≤ 122) ∨ (48 ≤ c.toNat ∧ c.toNat ≤ 57) := by
      simpa [isAllowed, Bool.or_eq_true, Bool.and_eq_true, decide_eq_true_iff] using h
    unfold Char.toLower
    have hno : ¬(c.toNat ≥ 65 ∧ c.toNat ≤ 90) := by omega
    simp [hno]
  · rw [h]
    decide

/-- No character of a collapsed header is whitespace. -/
theorem isWhitespace_false {c : Char} (h : isAllowed c = true ∨ c = '_') :
    c.isWhitespace = false := by
  rcases h with h | h
  · have h1 : c ≠ ' ' := by rintro rfl; exact absurd h (by decide)
    have h2 : c ≠ '\t' := by rintro rfl; exact absurd h (by decide)
    have h3 : c ≠ '\r' := by rintro rfl; exact absurd h (by decide)
    have h4 : c ≠ '\n' := by rintro rfl; exact absurd h (by decide)
    simp [Char.isWhitespace, h1, h2, h3, h4]
  · rw [h]
    decide

theorem stripChars_eq_self {l : List Char} (h : ∀ c ∈ l, c.isWhitespace = false) :
    stripChars l = l := by
  unfold stripChars
  rw [dropWhile_eq_self_of_all h]
  rw [dropWhile_eq_self_of_all (fun c hc => h c (List.mem_reverse.mp hc))]
  exact List.reverse_reverse l

theorem map_toLower_eq_self {l : List Char} (h : ∀ c ∈ l, isAllowed c = true ∨ c = '_') :
    l.map Char.toLower = l := by
  calc l.map Char.toLower = l.map id := List.map_congr_left (fun c hc => toLower_fixed (h c hc))
  _ = l := l.map_id

/-- The per-header transform is idempotent. -/
theorem normalize_header_idem (s : String) :
    normalize_header (normalize_header s) = normalize_header s := by
  conv_lhs => rw [normalize_header]
  have hX : ∀ c ∈ collapse ((stripChars s.data).map Char.toLower), isAllowed c = true ∨ c = '_' :=
    fun c hc => mem_collapse hc
  rw [show (normalize_header s).data = collapse ((stripChars s.data).map Char.toLower) from rfl]
  rw [stripChars_eq_self (fun c hc => isWhitespace_false (hX c hc))]
  rw [map_toLower_eq_self hX]
  rw [collapse_idem]
  rfl

-- Facts about the imputation passes.

theorem imputeCell_num (rows : List (String × RawCell)) (k : String) (q : ℚ) :
    imputeCell rows (k, RawCell.num q) = RawCell.num q := rfl

theorem imputeCell_text (rows : List (String × RawCell)) (k : String) (s : String) :
    imputeCell rows (k, RawCell.text s) = RawCell.text s := rfl

theorem groupPassCell_num (rows : List (String × RawCell)) (k : String) (q : ℚ) :
    groupPassCell rows (k, RawCell.num q) = RawCell.num q := rfl

theorem imputeColumn_getElem? (keys : List String) (vals : List RawCell) (i : Nat) :
    (imputeColumn keys vals)[i]? =
      Option.map (imputeCell (keys.zip vals)) (keys.zip vals)[i]? := by
  unfold imputeColumn
  exact List.getElem?_map _ _ _

theorem groupPass_getElem? (rows : List (String × RawCell)) (i : Nat) :
    (groupPass rows)[i]? = Option.map (groupPassCell rows) rows[i]? := by
  unfold groupPass
  exact List.getElem?_map _ _ _

/-- If some cell of the column carries a numeric value and the key column
has the same length, then the global fallback median exists. -/
theorem globalMedianPost_isSome (keys : List String) (vals : List RawCell)
    (hlen : keys.length = vals.length) (hex : ∃ q, RawCell.num q ∈ vals) :
    ∃ m, globalMedianPost (keys.zip vals) = some m := by
  obtain ⟨q, hq⟩ := hex
  obtain ⟨j, hj⟩ := List.getElem?_of_mem hq
  have hjv : j < vals.length := (List.getElem?_eq_some_iff.mp hj).1
  have hjk : j < keys.length := by omega
  have hrow : (keys.zip vals)[j]? = some (keys[j], RawCell.num q) :=
    List.getElem?_zip_eq_some.mpr ⟨List.getElem?_eq_getElem hjk, hj⟩
  have hgp : (groupPass (keys.zip vals))[j]? = some (RawCell.num q) := by
    rw [groupPass_getElem?, hrow]
    rfl
  have hmem : RawCell.num q ∈ groupPass (keys.zip vals) :=
    List.mem_iff_getElem?.mpr ⟨j, hgp⟩
  have hcv : q ∈ colVals (groupPass (keys.zip vals)) :=
    List.mem_filterMap.mpr ⟨RawCell.num q, hmem, rfl⟩
  exact median_eq_some_of_ne_nil (List.ne_nil_of_mem hcv)

/-- C1 (group-preference): a row whose value was originally missing, in a
group with at least one present value, receives exactly that group's
median - the group median exists and is what the imputed cell carries. -/
theorem impute_group_preference (keys : List String) (vals : List RawCell)
    (i : Nat) (g : String)
    (hk : keys[i]? = some g) (hv : vals[i]? = some RawCell.na)
    (hne : groupVals (keys.zip vals) g ≠ []) :
    (imputeColumn keys vals)[i]? =
        Option.map RawCell.num (groupMedian (keys.zip vals) g) ∧
      (groupMedian (keys.zip vals) g).isSome = true := by
  obtain ⟨m, hm⟩ := median_eq_some_of_ne_nil hne
  have hgm : groupMedian (keys.zip vals) g = some m := hm
  have hrow : (keys.zip vals)[i]? = some (g, RawCell.na) :=
    List.getElem?_zip_eq_some.mpr ⟨hk, hv⟩
  constructor
  · rw [imputeColumn_getElem?, hrow, hgm]
    simp only [Option.map_some']
    congr 1
    unfold imputeCell groupPassCell
    rw [show (g, RawCell.na).2 = RawCell.na from rfl, show (g, RawCell.na).1 = g from rfl]
    rw [hgm, fillCell_na_some, fillCell_num]
  · rw [hgm]
    rfl

/-- C2 (global fallback): a row still missing after the group pass, in a
dataset where the field has at least one present value, receives the
global median of the post-group-pass column. -/
theorem impute_global_fallback (keys : List String) (vals : List RawCell)
    (hlen : keys.length = vals.length) (i j : Nat) (q : ℚ)
    (hj : vals[j]? = some (RawCell.num q))
    (hstill : (groupPass (keys.zip vals))[i]? = some RawCell.na) :
    (imputeColumn keys vals)[i]? =
        Option.map RawCell.num (globalMedianPost (keys.zip vals)) ∧
      (globalMedianPost (keys.zip vals)).isSome = true := by
  obtain ⟨m, hm⟩ := globalMedianPost_isSome keys vals hlen
    ⟨q, List.mem_iff_getElem?.mpr ⟨j, hj⟩⟩
  rw [groupPass_getElem?] at hstill
  obtain ⟨r, hr, hrna⟩ := Option.map_eq_some'.mp hstill
  constructor
  · rw [imputeColumn_getElem?, hr, hm]
    simp only [Option.map_some']
    congr 1
    unfold imputeCell
    rw [hrna, hm, fillCell_na_some]
  · rw [hm]
    rfl

/-- An imputed cell is never missing once the global median exists. -/
theorem imputeCell_ne_na_of_global (rows : List (String × RawCell)) (r : String × RawCell)
    (m : ℚ) (hm : globalMedianPost rows = some m) :
    imputeCell rows r ≠ RawCell.na := by
  unfold imputeCell
  rw [hm]
  cases hgp : groupPassCell rows r with
  | na => rw [fillCell_na_some]; intro h; cases h
  | num q => rw [fillCell_num]; intro h; cases h
  | text s => rw [fillCell_text]; intro h; cases h

/-- C3 (completeness and no-data column): when the field has a present
value somewhere, the imputed column has missing-count zero; when the
field has no data at all, imputation leaves the column exactly as it was
and the diagnostic reports the full row count. -/
theorem impute_completeness (keys : List String) (vals : List RawCell)
    (hlen : keys.length = vals.length) :
    ((∃ q, RawCell.num q ∈ vals) → missingCount (imputeColumn keys vals) = 0) ∧
      ((∀ c ∈ vals, c = RawCell.na) →
        imputeColumn keys vals = vals ∧
          missingCount (imputeColumn keys vals) = vals.length) := by
  constructor
  · intro hex
    obtain ⟨m, hm⟩ := globalMedianPost_isSome keys vals hlen hex
    unfold missingCount
    rw [List.length_eq_zero, List.filter_eq_nil_iff]
    intro c hc
    obtain ⟨r, _, hr⟩ := List.mem_map.mp hc
    have hne : c ≠ RawCell.na := hr ▸ imputeCell_ne_na_of_global _ r m hm
    simpa using hne
  · intro hall
    have hgv : ∀ g, groupMedian (keys.zip vals) g = none := by
      intro g
      have : groupVals (keys.zip vals) g = [] := by
        unfold groupVals
        rw [List.filterMap_eq_nil_iff]
        intro r hr
        have hrz : r ∈ keys.zip vals := List.mem_of_mem_filter hr
        have : r.2 ∈ vals := (List.of_mem_zip (a := r.1) (b := r.2) (by simpa using hrz)).2
        rw [hall r.2 this]
        rfl
      rw [groupMedian, this, median_nil]
    have hgpc : ∀ r ∈ keys.zip vals, groupPassCell (keys.zip vals) r = RawCell.na := by
      intro r hr
      have : r.2 ∈ vals := (List.of_mem_zip (a := r.1) (b := r.2) (by simpa using hr)).2
      unfold groupPassCell
      rw [hgv r.1, hall r.2 this, fillCell_na_none]
    have hglob : globalMedianPost (keys.zip vals) = none := by
      unfold globalMedianPost
      have : colVals (groupPass (keys.zip vals)) = [] := by
        unfold colVals
        rw [List.filterMap_eq_nil_iff]
        intro c hc
        obtain ⟨r, hrm, hr⟩ := List.mem_map.mp hc
        rw [← hr, hgpc r hrm]
        rfl
      rw [this, median_nil]
    have hcell : ∀ r ∈ keys.zip vals, imputeCell (keys.zip vals) r = RawCell.na := by
      intro r hr
      unfold imputeCell
      rw [hglob, hgpc r hr, fillCell_na_none]
    have hzlen : (keys.zip vals).length = vals.length := by
      rw [List.length_zip, hlen, Nat.min_self]
    have hcol : imputeColumn keys vals = vals := by
      unfold imputeColumn
      calc (keys.zip vals).map (imputeCell (keys.zip vals))
          = (keys.zip vals).map (fun _ => RawCell.na) := List.map_congr_left hcell
        _ = List.replicate (keys.zip vals).length RawCell.na := List.map_const' _ _
        _ = List.replicate vals.length RawCell.na := by rw [hzlen]
        _ = vals := (List.eq_replicate_of_mem hall).symm
    refine ⟨hcol, ?_⟩
    rw [hcol]
    unfold missingCount
    have : ∀ c ∈ vals, (c == RawCell.na) = true := by
      intro c hc
      simp [hall c hc]
    rw [List.filter_eq_self.mpr this]

-- Permutation invariance of the imputation passes.

theorem groupVals_perm {rows₁ rows₂ : List (String × RawCell)}
    (h : List.Perm rows₁ rows₂) (g : String) :
    List.Perm (groupVals rows₁ g) (groupVals rows₂ g) := by
  unfold groupVals
  exact (h.filter (fun r => r.1 == g)).filterMap (fun r => cellVal r.2)

theorem groupMedian_congr {rows₁ rows₂ : List (String × RawCell)}
    (h : List.Perm rows₁ rows₂) (g : String) :
    groupMedian rows₁ g = groupMedian rows₂ g :=
  median_congr_perm (groupVals_perm h g)

theorem groupPassCell_congr {rows₁ rows₂ : List (String × RawCell)}
    (h : List.Perm rows₁ rows₂) (r : String × RawCell) :
    groupPassCell rows₁ r = groupPassCell rows₂ r := by
  unfold groupPassCell
  rw [groupMedian_congr h]

theorem groupPass_perm {rows₁ rows₂ : List (String × RawCell)}
    (h : List.Perm rows₁ rows₂) :
    List.Perm (groupPass rows₁) (groupPass rows₂) := by
  unfold groupPass
  have h2 : rows₂.map (groupPassCell rows₂) = rows₂.map (groupPassCell rows₁) :=
    List.map_congr_left (fun r _ => (groupPassCell_congr h r).symm)
  rw [h2]
  exact h.map (groupPassCell rows₁)

theorem globalMedianPost_congr {rows₁ rows₂ : List (String × RawCell)}
    (h : List.Perm rows₁ rows₂) :
    globalMedianPost rows₁ = globalMedianPost rows₂ :=
  median_congr_perm ((groupPass_perm h).filterMap cellVal)

theorem imputeCell_congr {rows₁ rows₂ : List (String × RawCell)}
    (h : List.Perm rows₁ rows₂) (r : String × RawCell) :
    imputeCell rows₁ r = imputeCell rows₂ r := by
  unfold imputeCell
  rw [globalMedianPost_congr h, groupPassCell_congr h r]

theorem zip_map_self {α β : Type} (f : α → β) :
    ∀ l : List α, l.zip (l.map f) = l.map (fun a => (a, f a))
  | [] => rfl
  | a :: t => by
      simp only [List.map_cons, List.zip_cons_cons]
      rw [zip_map_self f t]

/-- C4 (order independence): the imputed value of a row depends only on
the row itself and the multiset of rows, and imputing a permuted dataset
yields the correspondingly permuted (row, imputed value) pairs. -/
theorem impute_order_independent (keys₁ : List String) (vals₁ : List RawCell)
    (keys₂ : List String) (vals₂ : List RawCell)
    (hp : List.Perm (keys₁.zip vals₁) (keys₂.zip vals₂)) :
    (∀ r, imputeCell (keys₂.zip vals₂) r = imputeCell (keys₁.zip vals₁) r) ∧
      List.Perm ((keys₁.zip vals₁).zip (imputeColumn keys₁ vals₁))
        ((keys₂.zip vals₂).zip (imputeColumn keys₂ vals₂)) := by
  constructor
  · exact fun r => (imputeCell_congr hp r).symm
  · unfold imputeColumn
    rw [zip_map_self, zip_map_self]
    have h2 : (keys₂.zip vals₂).map (fun r => (r, imputeCell (keys₂.zip vals₂) r)) =
        (keys₂.zip vals₂).map (fun r => (r, imputeCell (keys₁.zip vals₁) r)) :=
      List.map_congr_left (fun r _ => by rw [imputeCell_congr hp r])
    rw [h2]
    exact hp.map (fun r => (r, imputeCell (keys₁.zip vals₁) r))

/-- C5 (idempotent normalisation): applying the header transform twice
equals applying it once, and the output preserves list length (and, being
a map, order); the transform is total on all input strings. -/
theorem normalize_columns_idempotent (H : List String) :
    normalize_columns (normalize_columns H) = normalize_columns H ∧
      (normalize_columns H).length = H.length := by
  constructor
  · unfold normalize_columns
    rw [List.map_map]
    exact List.map_congr_left (fun s _ => normalize_header_idem s)
  · unfold normalize_columns
    simp

/-- C6 (derived field): a row with a present gdp value and a positive
population receives exactly gdp * 1e9 / population. -/
theorem derive_formula (gs ps : List RawCell) (i : Nat) (g p : ℚ)
    (hg : gs[i]? = some (RawCell.num g)) (hp : ps[i]? = some (RawCell.num p))
    (hpos : 0 < p) :
    (deriveCol gs ps)[i]? = some (RawCell.num (g * 1000000000 / p)) := by
  unfold deriveCol
  rw [List.getElem?_zipWith, hg, hp]
  simp only
  unfold deriveCell cellVal
  simp [hpos.ne']

/-- C7 (derived-field edge case): a row whose population is missing,
non-numeric, or zero gets the explicit undefined marker for its derived
value, while the derived column is still produced for all rows. -/
theorem derive_edge_total (gs ps : List RawCell) (i : Nat) (gc pc : RawCell)
    (hg : gs[i]? = some gc) (hp : ps[i]? = some pc)
    (hbad : cellVal pc = none ∨ cellVal pc = some 0) :
    (deriveCol gs ps)[i]? = some RawCell.na ∧
      (deriveCol gs ps).length = min gs.length ps.length := by
  constructor
  · unfold deriveCol
    rw [List.getElem?_zipWith, hg, hp]
    simp only
    congr 1
    unfold deriveCell
    rcases hbad with hb | hb
    · rw [hb]
      cases cellVal gc <;> rfl
    · rw [hb]
      cases cellVal gc <;> simp
  · unfold deriveCol
    exact List.length_zipWith _ _ _

/-- C8 (grouping-key fill): after the fill, the region column has no
missing value - originally missing cells become "Unknown", present cells
are kept, an absent column is created all-"Unknown" with one entry per
row - and the later stages never touch the region column again. -/
theorem fill_key_postcondition (col : Option (List (Option String))) (n : Nat) :
    (∀ v ∈ fill_grouping_key col n, v.isSome = true) ∧
      (∀ vs : List (Option String), col = some vs →
        (fill_grouping_key col n).length = vs.length ∧
          (∀ i : Nat, vs[i]? = some none →
            (fill_grouping_key col n)[i]? = some (some "Unknown")) ∧
          (∀ (i : Nat) (s : String), vs[i]? = some (some s) →
            (fill_grouping_key col n)[i]? = some (some s))) ∧
      (col = none → fill_grouping_key col n = List.replicate n (some "Unknown")) ∧
      (∀ t : Table, (impute_numeric_fields t).region = t.region ∧
        (derive_gdp_per_capita t).region = t.region ∧
        (coerce_numeric t).region = t.region) := by
  refine ⟨?_, ?_, ?_, fun t => ⟨rfl, rfl, rfl⟩⟩
  · intro v hv
    cases col with
    | none =>
        have := List.eq_of_mem_replicate hv
        rw [this]
        rfl
    | some vs =>
        obtain ⟨w, _, hw⟩ := List.mem_map.mp hv
        cases w <;> simp [← hw]
  · intro vs hcol
    subst hcol
    refine ⟨by simp [fill_grouping_key], ?_, ?_⟩
    · intro i hi
      unfold fill_grouping_key
      rw [List.getElem?_map, hi]
      rfl
    · intro i s hi
      unfold fill_grouping_key
      rw [List.getElem?_map, hi]
      rfl
  · intro hcol
    subst hcol
    rfl

/-- C9 (frame effect): imputation leaves the identifier columns, the
region column, and the derived column untouched; each numeric column
keeps its name and length, and every originally present numeric value is
unchanged. -/
theorem impute_frame (t : Table)
    (hwf : ∀ c ∈ t.numCols, (tableKeys t).length = c.2.length) :
    (impute_numeric_fields t).country = t.country ∧
      (impute_numeric_fields t).geoId = t.geoId ∧
      (impute_numeric_fields t).region = t.region ∧
      (impute_numeric_fields t).gdpPerCapita = t.gdpPerCapita ∧
      ∀ (j : Nat) (name : String) (vals : List RawCell), t.numCols[j]? = some (name, vals) →
        ∃ vals2 : List RawCell, (impute_numeric_fields t).numCols[j]? = some (name, vals2) ∧
          vals2.length = vals.length ∧
          ∀ (i : Nat) (q : ℚ), vals[i]? = some (RawCell.num q) → vals2[i]? = some (RawCell.num q) := by
  refine ⟨rfl, rfl, rfl, rfl, ?_⟩
  intro j name vals hj
  have hmemcol : (name, vals) ∈ t.numCols := List.mem_iff_getElem?.mpr ⟨j, hj⟩
  have hkl : (tableKeys t).length = vals.length := hwf (name, vals) hmemcol
  have hout : (impute_numeric_fields t).numCols[j]? =
      some (if name ∈ num_cols then (name, imputeColumn (tableKeys t) vals) else (name, vals)) := by
    unfold impute_numeric_fields
    simp only
    rw [List.getElem?_map, hj]
    rfl
  by_cases hmem : name ∈ num_cols
  · refine ⟨imputeColumn (tableKeys t) vals, ?_, ?_, ?_⟩
    · rw [hout, if_pos hmem]
    · unfold imputeColumn
      rw [List.length_map, List.length_zip, hkl, Nat.min_self]
    · intro i q hq
      have hiv : i < vals.length := (List.getElem?_eq_some_iff.mp hq).1
      have hik : i < (tableKeys t).length := by omega
      have hrow : ((tableKeys t).zip vals)[i]? = some ((tableKeys t)[i], RawCell.num q) :=
        List.getElem?_zip_eq_some.mpr ⟨List.getElem?_eq_getElem hik, hq⟩
      rw [imputeColumn_getElem?, hrow]
      simp only [Option.map_some']
      rw [imputeCell_num]
  · refine ⟨vals, ?_, rfl, fun i q hq => hq⟩
    rw [hout, if_neg hmem]

/-- C10 counterexample: the script as written does not read the source
exactly once - its step sequence performs two reads. -/
theorem script_not_single_read : ¬ readCount script = 1 := by decide

/-- C10 (amended): the script reads the source twice (the whole load and
normalisation is duplicated), but everything after the second read
depends only on that read, so the final table equals that of the
single-read pipeline. -/
theorem script_output_single_read (src : Table) :
    interp src script none = interp src singleReadScript none ∧
      readCount script = 2 :=
  ⟨rfl, rfl⟩

-- Concrete witnesses.

theorem impute_group_preference_witness :
    (["A", "A", "B"] : List String)[1]? = some "A" ∧
      ([RawCell.num 10, RawCell.na, RawCell.num 30] : List RawCell)[1]? = some RawCell.na ∧
      ((imputeColumn ["A", "A", "B"] [RawCell.num 10, RawCell.na, RawCell.num 30])[1]? =
          Option.map RawCell.num
            (groupMedian ((["A", "A", "B"] : List String).zip
              [RawCell.num 10, RawCell.na, RawCell.num 30]) "A") ∧
        (groupMedian ((["A", "A", "B"] : List String).zip
          [RawCell.num 10, RawCell.na, RawCell.num 30]) "A").isSome = true) :=
  ⟨rfl, rfl, impute_group_preference ["A", "A", "B"]
    [RawCell.num 10, RawCell.na, RawCell.num 30] 1 "A" rfl rfl (by decide)⟩

theorem impute_global_fallback_witness :
    (["A", "B"] : List String).length = ([RawCell.na, RawCell.num 4] : List RawCell).length ∧
      ([RawCell.na, RawCell.num 4] : List RawCell)[1]? = some (RawCell.num 4) ∧
      (groupPass ((["A", "B"] : List String).zip [RawCell.na, RawCell.num 4]))[0]? =
        some RawCell.na ∧
      ((imputeColumn ["A", "B"] [RawCell.na, RawCell.num 4])[0]? =
          Option.map RawCell.num
            (globalMedianPost ((["A", "B"] : List String).zip [RawCell.na, RawCell.num 4])) ∧
        (globalMedianPost ((["A", "B"] : List String).zip
          [RawCell.na, RawCell.num 4])).isSome = true) :=
  ⟨rfl, rfl, by decide,
    impute_global_fallback ["A", "B"] [RawCell.na, RawCell.num 4] rfl 0 1 4 rfl (by decide)⟩

theorem impute_completeness_witness :
    (["A"] : List String).length = ([RawCell.num 3] : List RawCell).length ∧
      missingCount (imputeColumn ["A"] [RawCell.num 3]) = 0 :=
  ⟨rfl, (impute_completeness ["A"] [RawCell.num 3] rfl).1 ⟨3, by decide⟩⟩

theorem impute_order_independent_witness :
    List.Perm ((["A", "B"] : List String).zip [RawCell.num 1, RawCell.na])
        ((["B", "A"] : List String).zip [RawCell.na, RawCell.num 1]) ∧
      List.Perm
        (((["A", "B"] : List String).zip [RawCell.num 1, RawCell.na]).zip
          (imputeColumn ["A", "B"] [RawCell.num 1, RawCell.na]))
        (((["B", "A"] : List String).zip [RawCell.na, RawCell.num 1]).zip
          (imputeColumn ["B", "A"] [RawCell.na, RawCell.num 1])) :=
  ⟨by decide,
    (impute_order_independent ["A", "B"] [RawCell.num 1, RawCell.na]
      ["B", "A"] [RawCell.na, RawCell.num 1] (by decide)).2⟩

theorem derive_formula_witness :
    (0 : ℚ) < 2 ∧
      (deriveCol [RawCell.num 10] [RawCell.num 2])[0]? =
        some (RawCell.num (10 * 1000000000 / 2)) :=
  ⟨by norm_num, derive_formula [RawCell.num 10] [RawCell.num 2] 0 10 2 rfl rfl (by norm_num)⟩

theorem derive_edge_total_witness :
    (cellVal (RawCell.num 0) = none ∨ cellVal (RawCell.num 0) = some 0) ∧
      ((deriveCol [RawCell.num 10] [RawCell.num 0])[0]? = some RawCell.na ∧
        (deriveCol [RawCell.num 10] [RawCell.num 0]).length =
          min ([RawCell.num 10] : List RawCell).length ([RawCell.num 0] : List RawCell).length) :=
  ⟨Or.inr rfl,
    derive_edge_total [RawCell.num 10] [RawCell.num 0] 0 (RawCell.num 10) (RawCell.num 0)
      rfl rfl (Or.inr rfl)⟩

theorem fill_key_postcondition_witness :
    (fill_grouping_key (some [none, some "Europe"]) 2)[0]? = some (some "Unknown") :=
  ((fill_key_postcondition (some [none, some "Europe"]) 2).2.1
    [none, some "Europe"] rfl).2.1 0 rfl

/-- A one-row example table used to instantiate the frame theorem. -/
def exampleTable : Table :=
  { country := ["France"], geoId := [none], region := some [some "Europe"],
    numCols := [("gdp", [RawCell.num 5])], gdpPerCapita := none }

theorem impute_frame_witness :
    (impute_numeric_fields exampleTable).country = exampleTable.country :=
  (impute_frame exampleTable (by decide)).1
